import Mathlib

/-!
A verification development for the Ethereal sources under src:
search.c (iterative deepening driver, alpha-beta search, quiescence search,
move ordering heuristics, killer table), zobrist.c (castle-key table
initialization) and texel.c (error model of the tuner).

The board representation, the move generator and the move encoding macros are
external collaborators (their headers are not part of the sources); they enter
the embedding as the fields of the structure Externals below.  Machine time is
modelled by an oracle, indexed by the number of reads of the clock performed so
far.  Everything that search.c itself computes is transcribed line by line.
-/

set_option linter.unusedVariables false

/-- Modelled from the spec: the CheckMate sentinel from types.h (not under
src); the spec gives MATE = CheckMate = 32000. -/
def CheckMate : Int := 32000

/-- A principle variation, as in search.h: a move array plus a length field.
The array is modelled as a total function so that entries beyond the length
field keep their stale contents, exactly as the C array does; the length is an
Int because the value -1 is used as the abort sentinel. -/
structure PV (M : Type) where
  length : Int
  line : Nat → M

/-- The search_tree_t state of search.c, plus the clock-read counter tick that
drives the time oracle.  killer_moves and depth_one_values are total functions
(uninitialized C arrays hold arbitrary values, so the initial functions are
arbitrary). -/
structure SearchTree (P M : Type) where
  board : P
  ply : Nat
  raw_nodes : Int
  alpha_beta_nodes : Int
  quiescence_nodes : Int
  principle_variation : PV M
  killer_moves : Nat → M × M × M
  depth_one_values : Nat → Int
  tick : Nat

/-- The external collaborators used by search.c: board representation, move
generation, legality test, static evaluation, the move-encoding macros used by
basic_heuristic, and the time oracle (expired k answers the k-th read of
EndTime less-than time(NULL)). -/
structure Externals (P M : Type) where
  turn : P → Bool
  evaluate_board : P → Int
  gen_all_moves : P → List M
  gen_all_captures : P → List M
  apply_move : P → M → P
  revert_move : P → M → P
  is_not_in_check : P → Bool → Bool
  move_get_capture : M → Int
  is_empty_piece : Int → Bool
  square_of_from : P → M → Int
  expired : Nat → Bool

/-- Swap the entries at indices i and j of a list (the two parallel-array swaps
of order_by_value act on the zipped list). -/
def swap_at {A : Type} [Inhabited A] (l : List A) (i j : Nat) : List A :=
  let xi := l.getD i default
  let xj := l.getD j default
  (l.set i xj).set j xi

/-- Inner loop of order_by_value, search.c lines 248-258: for j from the given
start upward, swap positions i and j whenever values at j exceed values at i.
The first argument is loop fuel; the loop runs while j is below the length, so
fuel equal to the length always suffices. -/
def obv_inner {A : Type} [Inhabited A] : Nat → List (A × Int) → Nat → Nat → List (A × Int)
  | 0, l, _, _ => l
  | fuel + 1, l, i, j =>
    if j < l.length then
      let l2 := if (l.getD j default).2 > (l.getD i default).2 then swap_at l i j else l
      obv_inner fuel l2 i (j + 1)
    else l

/-- Outer loop of order_by_value, search.c lines 247-259. -/
def obv_outer {A : Type} [Inhabited A] : Nat → List (A × Int) → Nat → List (A × Int)
  | 0, l, _ => l
  | fuel + 1, l, i =>
    if i < l.length then obv_outer fuel (obv_inner l.length l i (i + 1)) (i + 1) else l

/-- order_by_value, search.c lines 243-260: sorts the zipped (move, value)
list into descending value order by the double swap loop of the source. -/
def order_by_value {A : Type} [Inhabited A] (l : List (A × Int)) : List (A × Int) :=
  obv_outer l.length l 0

/-- The per-move score computed by basic_heuristic, search.c lines 265-278:
a capture-over-mover quotient, the killer bonuses 1500/1000/500 and the bonus
30000 for the principle-variation move of this ply.  Int.tdiv is the
truncating division of C. -/
def heuristic_value {P M : Type} [DecidableEq M] (ext : Externals P M)
    (tree : SearchTree P M) (m : M) : Int :=
  let cap := ext.move_get_capture m
  let v := Int.tdiv ((if ext.is_empty_piece cap then 0 else 1) * cap) (ext.square_of_from tree.board m)
  let arr := tree.killer_moves tree.ply
  let v := if arr.1 = m then v + 1500
           else if arr.2.1 = m then v + 1000
           else if arr.2.2 = m then v + 500
           else v
  if m = tree.principle_variation.line (tree.ply - 1) then v + 30000 else v

/-- basic_heuristic, search.c lines 262-282: score every move, then
order_by_value the parallel arrays. -/
def basic_heuristic {P M : Type} [DecidableEq M] [Inhabited M] (ext : Externals P M)
    (tree : SearchTree P M) (moves : List M) : List M :=
  (order_by_value (moves.map (fun m => (m, heuristic_value ext tree m)))).map Prod.fst

/-- update_killer_heuristic, search.c lines 284-289: shift the three killer
slots of the current ply and put the new move in slot 0. -/
def update_killer_heuristic {P M : Type} (tree : SearchTree P M) (move : M) :
    SearchTree P M :=
  let arr := tree.killer_moves tree.ply
  { tree with killer_moves := fun p =>
      if p = tree.ply then (move, arr.1, arr.2.1) else tree.killer_moves p }

/-- The principle-variation write of search.c lines 135-137: line[0] gets the
move, the child line is copied into indices 1..lpv.length, entries beyond keep
their stale contents, and the length becomes lpv.length + 1. -/
def write_pv {M : Type} (pv : PV M) (m : M) (lpv : PV M) : PV M :=
  { length := lpv.length + 1,
    line := fun k =>
      if k = 0 then m
      else if (k : Int) ≤ lpv.length then lpv.line (k - 1)
      else pv.line k }

/-- The root branch of the move-ordering block, search.c line 105:
order_by_value over the parallel arrays moves and depth_one_values, which also
permutes the stored depth_one_values prefix. -/
def root_order_step {P M : Type} [Inhabited M] (tree : SearchTree P M)
    (moves0 : List M) : List M × SearchTree P M :=
  let paired := order_by_value (moves0.zip ((List.range moves0.length).map tree.depth_one_values))
  (paired.map Prod.fst,
   { tree with depth_one_values := fun j =>
       if j < moves0.length then (paired.map Prod.snd).getD j 0
       else tree.depth_one_values j })

/-- The complete root move ordering actually performed by alpha_beta_prune,
search.c lines 105-107: the order_by_value pass over depth_one_values (line
105) followed by the unconditional basic_heuristic re-sort of line 107. -/
def root_move_order {P M : Type} [DecidableEq M] [Inhabited M] (ext : Externals P M)
    (tree : SearchTree P M) (moves0 : List M) : List M :=
  let s := root_order_step tree moves0
  basic_heuristic ext s.2 s.1

/-- The time-control setup of get_best_move, search.c lines 19-23.  Line 21
assigns 10 to alloted_time before the deadline is formed, so the returned pair
(StartTime, EndTime) ignores the argument. -/
def get_best_move_times (start_time alloted_time : Int) : Int × Int :=
  let alloted_time : Int := 10
  (start_time, start_time + alloted_time)

/-- Modelled from the spec: the four primitive castling rights of the 4-bit
castling mask (castle.h is not under src). -/
def WHITE_KING_RIGHTS : Nat := 1

/-- Modelled from the spec: white queen-side castling right. -/
def WHITE_QUEEN_RIGHTS : Nat := 2

/-- Modelled from the spec: black king-side castling right. -/
def BLACK_KING_RIGHTS : Nat := 4

/-- Modelled from the spec: black queen-side castling right. -/
def BLACK_QUEEN_RIGHTS : Nat := 8

/-- Pointwise update of the castle-key table. -/
def updCastle (t : Nat → Nat) (i : Nat) (v : Nat) : Nat → Nat :=
  fun j => if j = i then v else t j

/-- One iteration of the combining loop of initZobrist, zobrist.c lines 74-87:
for each of the four rights whose bit is set in cr, xor the table entry of that
right into entry cr, reading the current table (the in-place reads are what the
C code performs). -/
def castleStep (t : Nat → Nat) (cr : Nat) : Nat → Nat :=
  let t := if cr &&& WHITE_KING_RIGHTS ≠ 0 then updCastle t cr (t cr ^^^ t WHITE_KING_RIGHTS) else t
  let t := if cr &&& WHITE_QUEEN_RIGHTS ≠ 0 then updCastle t cr (t cr ^^^ t WHITE_QUEEN_RIGHTS) else t
  let t := if cr &&& BLACK_KING_RIGHTS ≠ 0 then updCastle t cr (t cr ^^^ t BLACK_KING_RIGHTS) else t
  let t := if cr &&& BLACK_QUEEN_RIGHTS ≠ 0 then updCastle t cr (t cr ^^^ t BLACK_QUEEN_RIGHTS) else t
  t

/-- The combining loop of initZobrist run for cr = 0 .. n-1 (zobrist.c lines
74-87), starting from a given table. -/
def castleLoop (t : Nat → Nat) : Nat → (Nat → Nat)
  | 0 => t
  | n + 1 => castleStep (castleLoop t n) n

/-- ZobristCastleKeys after initZobrist, zobrist.c lines 68-87, as a function
of the four keys a b c d drawn by rand64 for the four primitive rights: the
global array starts zero-initialized, the four primitive entries receive the
drawn keys (lines 68-71), then the combining loop runs over all cr in 0..15.
Keys are 64-bit words; xor never overflows, so plain Nat models them. -/
def ZobristCastleKeysAfterInit (a b c d : Nat) : Nat → Nat :=
  castleLoop
    (fun i =>
      if i = WHITE_KING_RIGHTS then a
      else if i = WHITE_QUEEN_RIGHTS then b
      else if i = BLACK_KING_RIGHTS then c
      else if i = BLACK_QUEEN_RIGHTS then d
      else 0)
    16

/-- Loop state of the quiescence capture loop, search.c lines 179-194. -/
structure QLoop (P M : Type) where
  alpha : Int
  best : Int
  tree : SearchTree P M

/-- The capture loop of quiescence_search, search.c lines 179-194, processing
the given move sequence in order (the caller passes the sequence the C index
loop traverses).  recurse is the recursive quiescence call at the remaining
fuel; none propagates fuel exhaustion of the model. -/
def qsearch_loop {P M : Type} (ext : Externals P M)
    (recurse : SearchTree P M → Int → Int → Option (Int × SearchTree P M))
    (beta : Int) : List M → QLoop P M → Option (QLoop P M)
  | [], s => some s
  | m :: rest, s =>
    let board := ext.apply_move s.tree.board m
    let s := { s with tree := { s.tree with board := board } }
    if ext.is_not_in_check board (!ext.turn board) then
      match recurse s.tree (-beta) (-s.alpha) with
      | none => none
      | some (v, t1) =>
        let value := -v
        let s := { s with tree := t1 }
        let s := if value > s.best then { s with best := value } else s
        let s := if s.best > s.alpha then { s with alpha := s.best } else s
        if s.alpha > beta then
          let s := { s with tree := update_killer_heuristic s.tree m }
          some { s with tree := { s.tree with board := ext.revert_move s.tree.board m } }
        else
          let s := { s with tree := { s.tree with board := ext.revert_move s.tree.board m } }
          qsearch_loop ext recurse beta rest s
    else
      let s := { s with tree := { s.tree with board := ext.revert_move s.tree.board m } }
      qsearch_loop ext recurse beta rest s

/-- The sequence of captures the quiescence loop examines, search.c lines
175-181: gen_all_captures, sorted descending by basic_heuristic, then
traversed by the index loop for i = size-1 down to 0 — that is, the reverse of
the sorted list. -/
def quiescence_visit_order {P M : Type} [DecidableEq M] [Inhabited M]
    (ext : Externals P M) (tree : SearchTree P M) : List M :=
  (basic_heuristic ext tree (ext.gen_all_captures tree.board)).reverse

/-- quiescence_search, search.c lines 157-198.  The first argument is model
fuel bounding the recursion depth; none reports fuel exhaustion.  ep is the
global EvaluatingPlayer. -/
def quiescence_search {P M : Type} [DecidableEq M] [Inhabited M]
    (ext : Externals P M) (ep : Bool) :
    Nat → SearchTree P M → Int → Int → Option (Int × SearchTree P M)
  | 0, _, _, _ => none
  | fuel + 1, tree, alpha, beta =>
    let tree := { tree with raw_nodes := tree.raw_nodes + 1,
                            quiescence_nodes := tree.quiescence_nodes + 1 }
    let expiredNow := ext.expired tree.tick
    let tree := { tree with tick := tree.tick + 1 }
    if expiredNow then
      some (if ext.turn tree.board = ep then -CheckMate else CheckMate, tree)
    else
      let best := ext.evaluate_board tree.board
      let alpha := if best > alpha then best else alpha
      if alpha > beta then some (best, tree)
      else
        let tree := { tree with ply := tree.ply + 1 }
        match qsearch_loop ext (fun t a b => quiescence_search ext ep fuel t a b) beta
            (quiescence_visit_order ext tree)
            { alpha := alpha, best := best, tree := tree } with
        | none => none
        | some s => some (s.best, { s.tree with ply := s.tree.ply - 1 })

/-- Loop state of the alpha-beta move loop, search.c lines 111-148: the search
window bound alpha, the fail-soft best, the legal-move counter, the local
child line lpv (shared across iterations, as the C stack variable is), the pv
out-parameter and the tree. -/
structure ABLoop (P M : Type) where
  alpha : Int
  best : Int
  valid_size : Nat
  lpv : PV M
  pv : PV M
  tree : SearchTree P M

/-- The principal-variation-search step of the move loop, search.c lines
117-123: for a non-first move after a principle-variation first move, a
null-window scout search and, on a fail-high inside the window, a re-search
with the window (-beta, -value); otherwise a full-window search.  Returns the
negated value together with the child line and the tree. -/
def ab_step {P M : Type}
    (recurse : PV M → SearchTree P M → Int → Int → Option (Int × PV M × SearchTree P M))
    (first_node_was_pv : Bool) (beta : Int) (i : Nat)
    (lpv : PV M) (tree : SearchTree P M) (alpha : Int) :
    Option (Int × PV M × SearchTree P M) :=
  if i ≠ 0 ∧ first_node_was_pv = true then
    match recurse lpv tree (-alpha - 1) (-alpha) with
    | none => none
    | some (v1, lpv1, t1) =>
      let value := -v1
      if value > alpha ∧ value < beta then
        match recurse lpv1 t1 (-beta) (-value) with
        | none => none
        | some (v2, lpv2, t2) => some (-v2, lpv2, t2)
      else some (value, lpv1, t1)
  else
    match recurse lpv tree (-beta) (-alpha) with
    | none => none
    | some (v, lpv1, t1) => some (-v, lpv1, t1)

/-- The move loop of alpha_beta_prune, search.c lines 111-148, processing the
sorted moves with their indices (the index is needed for the principal
variation search test i = 0 and for the depth_one_values store at the root).
isRoot records whether the pv out-parameter is tree.principle_variation itself
(the aliasing of the root call of get_best_move): every write through the
out-parameter is then also a write to the committed line in the tree. -/
def ab_loop {P M : Type} (ext : Externals P M)
    (recurse : PV M → SearchTree P M → Int → Int → Option (Int × PV M × SearchTree P M))
    (isRoot : Bool) (first_node_was_pv : Bool) (beta : Int) :
    List M → Nat → ABLoop P M → Option (ABLoop P M)
  | [], _, s => some s
  | m :: rest, i, s =>
    let board := ext.apply_move s.tree.board m
    let s := { s with tree := { s.tree with board := board } }
    if ext.is_not_in_check board (!ext.turn board) then
      let s := { s with valid_size := s.valid_size + 1 }
      match ab_step recurse first_node_was_pv beta i s.lpv s.tree s.alpha with
      | none => none
      | some (value, lpv1, t1) =>
        let s := { s with lpv := lpv1, tree := t1 }
        let s := if s.tree.ply = 1 then
            { s with tree := { s.tree with depth_one_values := fun j =>
                if j = i then value else s.tree.depth_one_values j } }
          else s
        let s := if value > s.best then { s with best := value } else s
        let s :=
          if s.best > s.alpha then
            let s := { s with alpha := s.best }
            if s.lpv.length ≠ -1 then
              let pv2 := write_pv s.pv m s.lpv
              let s := { s with pv := pv2 }
              if isRoot then { s with tree := { s.tree with principle_variation := pv2 } } else s
            else s
          else s
        if s.alpha > beta then
          let s := { s with tree := update_killer_heuristic s.tree m }
          some { s with tree := { s.tree with board := ext.revert_move s.tree.board m } }
        else
          let s := { s with tree := { s.tree with board := ext.revert_move s.tree.board m } }
          ab_loop ext recurse isRoot first_node_was_pv beta rest (i + 1) s
    else
      let s := { s with tree := { s.tree with board := ext.revert_move s.tree.board m } }
      ab_loop ext recurse isRoot first_node_was_pv beta rest (i + 1) s

/-- alpha_beta_prune, search.c lines 79-155.  lpv0 is the arbitrary initial
content of the uninitialized stack variable lpv (the same arbitrary value is
used at every level); fuel bounds the quiescence recursion at depth 0; isRoot
marks the call whose pv out-parameter is tree.principle_variation itself (the
call made by get_best_move); pv is the current content of the out-parameter.
Returns (value, content of the out-parameter on exit, tree). -/
def alpha_beta_prune {P M : Type} [DecidableEq M] [Inhabited M]
    (ext : Externals P M) (ep : Bool) (lpv0 : PV M) (fuel : Nat) :
    Nat → Bool → PV M → SearchTree P M → Int → Int →
    Option (Int × PV M × SearchTree P M)
  | depth, isRoot, pv, tree, alpha, beta =>
    let tree := { tree with raw_nodes := tree.raw_nodes + 1,
                            alpha_beta_nodes := tree.alpha_beta_nodes + 1 }
    let expiredNow := ext.expired tree.tick
    let tree := { tree with tick := tree.tick + 1 }
    if expiredNow then
      let pv := { pv with length := -1 }
      let tree := if isRoot then { tree with principle_variation := pv } else tree
      some (if ext.turn tree.board = ep then -CheckMate else CheckMate, pv, tree)
    else
      match depth with
      | 0 =>
        let tree := { tree with raw_nodes := tree.raw_nodes - 1,
                                alpha_beta_nodes := tree.alpha_beta_nodes - 1 }
        let pv := { pv with length := 0 }
        let tree := if isRoot then { tree with principle_variation := pv } else tree
        match quiescence_search ext ep fuel tree alpha beta with
        | none => none
        | some (v, tree) => some (v, pv, tree)
      | d + 1 =>
        let tree := { tree with ply := tree.ply + 1 }
        let moves0 := ext.gen_all_moves tree.board
        let ms := if tree.ply = 1 then root_order_step tree moves0
                  else (basic_heuristic ext tree moves0, tree)
        let tree := ms.2
        let moves := basic_heuristic ext tree ms.1
        let first_node_was_pv :=
          decide (tree.principle_variation.line (tree.ply - 1) = moves.getD 0 default)
        match ab_loop ext (fun lpv t a b => alpha_beta_prune ext ep lpv0 fuel d false lpv t a b)
            isRoot first_node_was_pv beta moves 0
            { alpha := alpha, best := -CheckMate, valid_size := 0,
              lpv := lpv0, pv := pv, tree := tree } with
        | none => none
        | some s =>
          let best := if s.valid_size = 0 ∧ ext.is_not_in_check s.tree.board (ext.turn s.tree.board) = true
                      then 0 else s.best
          some (best, s.pv, { s.tree with ply := s.tree.ply - 1 })

/-- A small concrete instantiation of the externals over numeric boards and
moves: one capture (move 7) available at board 0, no expiry, everything else
trivial.  Used to exercise the quiescence paths on concrete inputs. -/
def extQ : Externals Nat Nat where
  turn := fun _ => true
  evaluate_board := fun p => if p = 0 then -5 else -100
  gen_all_moves := fun _ => []
  gen_all_captures := fun p => if p = 0 then [7] else []
  apply_move := fun p m => p + m
  revert_move := fun p m => p - m
  is_not_in_check := fun _ _ => true
  move_get_capture := fun m => if m = 7 then 500 else 0
  is_empty_piece := fun c => decide (c = 0)
  square_of_from := fun _ _ => 1
  expired := fun _ => false

/-- A concrete initial search tree over numeric boards and moves. -/
def treeQ : SearchTree Nat Nat where
  board := 0
  ply := 0
  raw_nodes := 0
  alpha_beta_nodes := 0
  quiescence_nodes := 0
  principle_variation := { length := 0, line := fun _ => 99 }
  killer_moves := fun _ => (99, 99, 99)
  depth_one_values := fun _ => 0
  tick := 0

/-- Externals for the root-ordering evaluation: move 2 is a big capture. -/
def extQ2 : Externals Nat Nat :=
  { extQ with move_get_capture := fun m => if m = 2 then 900 else 0 }

/-- Tree for the root-ordering evaluation: at ply 1, previous root scores 10
for index 0 and 0 for index 1. -/
def treeQ2 : SearchTree Nat Nat :=
  { treeQ with ply := 1, depth_one_values := fun i => if i = 0 then 10 else 0 }

/-- Externals for the quiescence visit-order evaluation: two captures at board
0 with heuristic material 800 (move 1) and 300 (move 2). -/
def extQ3 : Externals Nat Nat :=
  { extQ with
    gen_all_captures := fun p => if p = 0 then [1, 2] else [],
    move_get_capture := fun m => if m = 1 then 800 else if m = 2 then 300 else 0 }

/-- Claim C1: get_best_move is claimed to set the deadline to start plus the
caller-supplied budget; the code (line 21 of search.c) overwrites the budget
with 10 first, so with budget 5 the deadline is start + 10, not start + 5. -/
theorem C1_deadline_ignores_budget :
    (get_best_move_times 0 5).2 = 10 ∧ (get_best_move_times 0 5).2 ≠ 0 + 5 := by
  decide

/-- Claim C2: the root moves are claimed to be searched in descending order of
depth_one_values; on the concrete input, moves [1, 2] with previous root
scores (10, 0), that order is [1, 2] (third conjunct), but the ordering the
code actually uses, root_move_order (line 105 followed by the unconditional
basic_heuristic re-sort of line 107), is [2, 1] because move 2 is a big
capture — so the depth-one ordering is destroyed. -/
theorem C2_root_order_not_by_depth_one :
    root_move_order extQ2 treeQ2 [1, 2] = [2, 1] ∧
    treeQ2.depth_one_values 1 < treeQ2.depth_one_values 0 ∧
    (order_by_value [((1 : Nat), (10 : Int)), (2, 0)]).map Prod.fst = [1, 2] := by
  decide

/-- Claim C3: the quiescence loop is claimed to examine captures in descending
basic_heuristic order; on the concrete input with captures [1, 2] scored 800
and 300, the sequence the loop actually examines (sorted descending, then
traversed from index size-1 down to 0) is [2, 1]: the lower-scored capture
comes first, ascending order. -/
theorem C3_quiescence_visits_worst_first :
    quiescence_visit_order extQ3 treeQ = [2, 1] ∧
    heuristic_value extQ3 treeQ 2 < heuristic_value extQ3 treeQ 1 := by
  decide

/-- Claim C5: after initZobrist every castle-key table entry is claimed to be
the xor of the freshly drawn primitive keys of the rights in the mask.  With
concrete drawn keys (11, 22, 33, 44) the combining loop of zobrist.c lines
74-87 self-cancels the primitive entries (at cr = 1 it xors entry 1 into
itself) before the composite entries read them, leaving every entry 0; in
particular entry WHITE_KING_RIGHTS is 0, not the drawn key 11. -/
theorem C5_castle_keys_all_zero :
    (∀ cr : Fin 16, ZobristCastleKeysAfterInit 11 22 33 44 cr.val = 0) ∧
    ZobristCastleKeysAfterInit 11 22 33 44 WHITE_KING_RIGHTS ≠ 11 := by
  decide

/-- Externals for the stand-pat equality case: evaluation 0 at board 0 and -5
at the capture child, so that alpha = beta = 0 holds after the stand-pat
update while a capture still raises the score. -/
def extQ4 : Externals Nat Nat :=
  { extQ with evaluate_board := fun p => if p = 0 then 0 else -5 }

/-- Claim C4 counterexample: with alpha = beta = 0 the stand-pat update leaves
alpha ≥ beta (first conjunct), yet quiescence_search does not return the
stand-pat value immediately: it searches the capture, returns 5 instead of the
stand-pat 0, and visits two quiescence nodes instead of one.  The code only
returns early under the strict test alpha > beta (search.c line 169). -/
theorem C4_equal_window_still_searches :
    ((if extQ4.evaluate_board treeQ.board > (0 : Int) then extQ4.evaluate_board treeQ.board else 0) ≥ 0) ∧
    (quiescence_search extQ4 true 3 treeQ 0 0).map Prod.fst = some 5 ∧
    (quiescence_search extQ4 true 3 treeQ 0 0).map (fun r => r.2.quiescence_nodes) =
      some (treeQ.quiescence_nodes + 2) ∧
    extQ4.evaluate_board treeQ.board = 0 ∧ (5 : Int) ≠ 0 := by
  decide

/-- Claim C4 as amended: when the stand-pat update leaves alpha strictly above
beta (the test the code performs, search.c line 169), quiescence_search
returns the stand-pat evaluation immediately — the node counters and the
clock-read counter advance once and nothing else changes, so no capture is
generated or searched. -/
theorem C4_strict_cutoff_returns_standpat {P M : Type} [DecidableEq M] [Inhabited M]
    (ext : Externals P M) (ep : Bool) (fuel : Nat) (tree : SearchTree P M)
    (alpha beta : Int)
    (hexp : ext.expired tree.tick = false)
    (hcut : (if ext.evaluate_board tree.board > alpha then ext.evaluate_board tree.board else alpha) > beta) :
    quiescence_search ext ep (fuel + 1) tree alpha beta =
      some (ext.evaluate_board tree.board,
        { tree with raw_nodes := tree.raw_nodes + 1,
                    quiescence_nodes := tree.quiescence_nodes + 1,
                    tick := tree.tick + 1 }) := by
  simp [quiescence_search, hexp, hcut]

/-- Witness for the amended claim C4 at a concrete input: alpha = 0, beta =
-10 and stand-pat -5 give a strict cutoff, and the call returns the stand-pat
value with only the counters advanced. -/
theorem C4_strict_cutoff_witness :
    quiescence_search extQ true 1 treeQ 0 (-10) =
      some (extQ.evaluate_board treeQ.board,
        { treeQ with raw_nodes := treeQ.raw_nodes + 1,
                     quiescence_nodes := treeQ.quiescence_nodes + 1,
                     tick := treeQ.tick + 1 }) :=
  C4_strict_cutoff_returns_standpat extQ true 0 treeQ 0 (-10) rfl (by decide)

/-- Claim C7 counterexample: killer moves are claimed to be always quiet.  In
the concrete quiescence run the capture 7 (its captured-piece code 500 is not
empty) produces a beta cutoff and is stored in killer slot 0 of ply 1, so the
killer table holds a capture. -/
theorem C7_killer_can_hold_capture :
    (quiescence_search extQ true 3 treeQ (-10) 0).map (fun r => (r.2.killer_moves 1).1) = some 7 ∧
    extQ.is_empty_piece (extQ.move_get_capture 7) = false ∧
    extQ.gen_all_captures treeQ.board = [7] := by
  decide

/-- Claim C7 as amended: update_killer_heuristic stores the beta-cutoff move in
slot 0 of the current ply and shifts the other two slots, with no quietness
test — so the killer slots hold the most recent beta-cutoff moves whatever
their kind, and the quiescence cutoffs put captures there. -/
theorem C7_killer_update_shifts_any_move {P M : Type} (tree : SearchTree P M) (m : M) :
    (update_killer_heuristic tree m).killer_moves tree.ply =
      (m, (tree.killer_moves tree.ply).1, (tree.killer_moves tree.ply).2.1) := by
  simp [update_killer_heuristic]

/-- Externals whose clock has already expired at every read. -/
def extC6 : Externals Nat Nat := { extQ with expired := fun _ => true }

/-- A committed principle variation of length 2 from a completed iteration. -/
def pvC6 : PV Nat := { length := 2, line := fun _ => 7 }

/-- Tree whose committed principle variation is pvC6. -/
def treeC6 : SearchTree Nat Nat := { treeQ with principle_variation := pvC6 }

/-- Arbitrary initial content of the uninitialized stack variable lpv. -/
def lpvZ : PV Nat := { length := 0, line := fun _ => 0 }

/-- Claim C6 counterexample: the committed principle variation is claimed to
be left unchanged by an iteration whose root call aborts with PV length -1.
In the concrete aborted root call the committed structure is changed: its
length field, 2 before the call, is -1 afterwards, because the root pv
out-parameter is tree.principle_variation itself (search.c line 41) and the
expiry branch writes length -1 through it (line 88). -/
theorem C6_root_abort_changes_committed_pv :
    (alpha_beta_prune extC6 true lpvZ 4 3 true pvC6 treeC6 (-32000) 32000).map
        (fun r => r.2.2.principle_variation.length) = some (-1) ∧
    treeC6.principle_variation.length = 2 ∧ ((-1 : Int) ≠ 2) := by
  decide

/-- Claim C6 as amended: a root alpha_beta_prune call that aborts on entry by
time expiry (the only way the root PV length becomes -1) sets the committed
principle-variation length to -1 but leaves the whole committed line array —
in particular line[0], the move get_best_move returns — unchanged. -/
theorem C6_root_abort_keeps_line {P M : Type} [DecidableEq M] [Inhabited M]
    (ext : Externals P M) (ep : Bool) (lpv0 : PV M) (fuel depth : Nat)
    (pv : PV M) (tree : SearchTree P M) (alpha beta : Int)
    (hexp : ext.expired tree.tick = true)
    (hal : pv = tree.principle_variation) :
    (alpha_beta_prune ext ep lpv0 fuel depth true pv tree alpha beta).map
        (fun r => (r.2.2.principle_variation.length,
                   fun k => r.2.2.principle_variation.line k)) =
      some (-1, fun k => tree.principle_variation.line k) := by
  subst hal
  rw [alpha_beta_prune.eq_def]
  simp [hexp]

/-- Witness for the amended claim C6 at the concrete aborted root call: the
committed length becomes -1 while the committed line is intact. -/
theorem C6_root_abort_keeps_line_witness :
    (alpha_beta_prune extC6 true lpvZ 4 3 true pvC6 treeC6 (-32000) 32000).map
        (fun r => (r.2.2.principle_variation.length,
                   fun k => r.2.2.principle_variation.line k)) =
      some (-1, fun k => treeC6.principle_variation.line k) :=
  C6_root_abort_keeps_line extC6 true lpvZ 4 3 pvC6 treeC6 (-32000) 32000 rfl rfl

/-- The killer-table update does not touch the board. -/
theorem update_killer_heuristic_board {P M : Type} (tree : SearchTree P M) (m : M) :
    (update_killer_heuristic tree m).board = tree.board := rfl

/-- The quiescence capture loop never decreases the fail-soft best: every
iteration only replaces best by a larger value (search.c line 185). -/
theorem qsearch_loop_best_mono {P M : Type} (ext : Externals P M)
    (recurse : SearchTree P M → Int → Int → Option (Int × SearchTree P M)) (beta : Int) :
    ∀ (moves : List M) (s s2 : QLoop P M),
      qsearch_loop ext recurse beta moves s = some s2 → s.best ≤ s2.best := by
  intro moves
  induction moves with
  | nil =>
    intro s s2 h
    simp only [qsearch_loop, Option.some.injEq] at h
    cases h
    exact le_refl _
  | cons m rest ih =>
    intro s s2 h
    simp only [qsearch_loop] at h
    split at h
    · split at h
      · exact Option.noConfusion h
      · repeat' split at h
        all_goals
          first
          | exact Option.noConfusion h
          | (simp only [Option.some.injEq] at h
             subst h
             dsimp only
             omega)
          | (have h2 := ih _ _ h
             refine le_trans ?_ h2
             dsimp only
             omega)
    · have h2 := ih _ _ h
      exact h2

/-- Claim C9: with a clock that never expires, quiescence_search called with
alpha at minus CheckMate (the minus-infinity of the search window) returns a
value at least the stand-pat evaluation of the entry position: best starts as
the stand-pat score (search.c line 167) and the capture loop only ever raises
it. -/
theorem C9_quiescence_ge_standpat {P M : Type} [DecidableEq M] [Inhabited M]
    (ext : Externals P M) (ep : Bool)
    (hexp : ∀ k, ext.expired k = false)
    (fuel : Nat) (tree : SearchTree P M) (beta v : Int) (t2 : SearchTree P M)
    (h : quiescence_search ext ep fuel tree (-CheckMate) beta = some (v, t2)) :
    ext.evaluate_board tree.board ≤ v := by
  cases fuel with
  | zero => exact Option.noConfusion h
  | succ fuel =>
    simp only [quiescence_search, hexp, Bool.false_eq_true, if_false] at h
    repeat' split at h
    all_goals
      first
      | exact Option.noConfusion h
      | (simp only [Option.some.injEq, Prod.mk.injEq] at h
         obtain ⟨hv, -⟩ := h
         subst hv
         exact le_refl _)
      | (rename_i s heq
         simp only [Option.some.injEq, Prod.mk.injEq] at h
         obtain ⟨hv, -⟩ := h
         subst hv
         have hm := qsearch_loop_best_mono ext _ beta _ _ _ heq
         dsimp only at hm
         exact hm)

/-- Witness for claim C9 at a concrete input: with the never-expiring extQ and
stand-pat -5, the returned value 100 (the capture was winning) satisfies the
stand-pat lower bound. -/
theorem C9_quiescence_ge_standpat_witness :
    extQ.evaluate_board treeQ.board ≤ 100 :=
  C9_quiescence_ge_standpat extQ true (fun _ => rfl) 5 treeQ 32000 100 _ rfl

/-- Board identity through the quiescence capture loop: assuming apply and
revert are exact inverses and the recursive call preserves the board, the loop
leaves the board exactly as it found it on every control path — illegal-move
skip, beta cutoff and normal completion. -/
theorem qsearch_loop_board {P M : Type} (ext : Externals P M)
    (recurse : SearchTree P M → Int → Int → Option (Int × SearchTree P M))
    (hinv : ∀ p m, ext.revert_move (ext.apply_move p m) m = p)
    (hrec : ∀ t a b v t1, recurse t a b = some (v, t1) → t1.board = t.board)
    (beta : Int) :
    ∀ (moves : List M) (s s2 : QLoop P M),
      qsearch_loop ext recurse beta moves s = some s2 → s2.tree.board = s.tree.board := by
  intro moves
  induction moves with
  | nil =>
    intro s s2 h
    simp only [qsearch_loop, Option.some.injEq] at h
    cases h
    rfl
  | cons m rest ih =>
    intro s s2 h
    simp only [qsearch_loop] at h
    split at h
    · split at h
      · exact Option.noConfusion h
      · rename_i v t1 heq
        have hb : t1.board = ext.apply_move s.tree.board m := hrec _ _ _ _ _ heq
        repeat' split at h
        all_goals
          first
          | exact Option.noConfusion h
          | (simp only [Option.some.injEq] at h
             subst h
             dsimp only [update_killer_heuristic]
             rw [hb]
             exact hinv _ _)
          | (have h2 := ih _ _ h
             dsimp only [update_killer_heuristic] at h2
             rw [hb, hinv] at h2
             exact h2)
    · have h2 := ih _ _ h
      dsimp only at h2
      rw [hinv] at h2
      exact h2

/-- Board identity through quiescence_search: assuming apply and revert are
exact inverses, the board on exit equals the board on entry on every control
path — time expiry, stand-pat cutoff, and the capture loop. -/
theorem quiescence_search_board {P M : Type} [DecidableEq M] [Inhabited M]
    (ext : Externals P M) (ep : Bool)
    (hinv : ∀ p m, ext.revert_move (ext.apply_move p m) m = p) :
    ∀ (fuel : Nat) (tree : SearchTree P M) (alpha beta v : Int) (t2 : SearchTree P M),
      quiescence_search ext ep fuel tree alpha beta = some (v, t2) → t2.board = tree.board := by
  intro fuel
  induction fuel with
  | zero => intro tree alpha beta v t2 h; exact Option.noConfusion h
  | succ fuel ih =>
    intro tree alpha beta v t2 h
    simp only [quiescence_search] at h
    repeat' split at h
    all_goals
      first
      | exact Option.noConfusion h
      | (simp only [Option.some.injEq, Prod.mk.injEq] at h
         obtain ⟨-, h2⟩ := h
         subst h2
         rfl)
      | (rename_i s heq
         simp only [Option.some.injEq, Prod.mk.injEq] at h
         obtain ⟨-, h2⟩ := h
         subst h2
         have hb := qsearch_loop_board ext _ hinv (fun t a b v t1 hr => ih t a b v t1 hr) beta _ _ _ heq
         dsimp only at hb ⊢
         exact hb)


/-- Board identity through the principal-variation-search step: if the
recursive call preserves the board, so do the scout search and the re-search
chain. -/
theorem ab_step_board {P M : Type}
    (recurse : PV M → SearchTree P M → Int → Int → Option (Int × PV M × SearchTree P M))
    (hrec : ∀ lpv t a b v lpv1 t1, recurse lpv t a b = some (v, lpv1, t1) → t1.board = t.board)
    (fnp : Bool) (beta : Int) (i : Nat)
    (lpv : PV M) (tree : SearchTree P M) (alpha : Int) :
    ∀ (v : Int) (lpv1 : PV M) (t1 : SearchTree P M),
      ab_step recurse fnp beta i lpv tree alpha = some (v, lpv1, t1) → t1.board = tree.board := by
  intro v lpv1 t1 h
  simp only [ab_step] at h
  by_cases hc : i ≠ 0 ∧ fnp = true
  · rw [if_pos hc] at h
    cases heq : recurse lpv tree (-alpha - 1) (-alpha) with
    | none => rw [heq] at h; exact Option.noConfusion h
    | some r =>
      obtain ⟨v1, l1, tt1⟩ := r
      rw [heq] at h
      dsimp only at h
      have h1 : tt1.board = tree.board := hrec _ _ _ _ _ _ _ heq
      by_cases hw : -v1 > alpha ∧ -v1 < beta
      · rw [if_pos hw] at h
        cases heq2 : recurse l1 tt1 (-beta) (-(-v1)) with
        | none => rw [heq2] at h; exact Option.noConfusion h
        | some r2 =>
          obtain ⟨v2, l2, tt2⟩ := r2
          rw [heq2] at h
          dsimp only at h
          simp only [Option.some.injEq, Prod.mk.injEq] at h
          obtain ⟨-, -, h3⟩ := h
          subst h3
          exact (hrec _ _ _ _ _ _ _ heq2).trans h1
      · rw [if_neg hw] at h
        simp only [Option.some.injEq, Prod.mk.injEq] at h
        obtain ⟨-, -, h3⟩ := h
        subst h3
        exact h1
  · rw [if_neg hc] at h
    cases heq : recurse lpv tree (-beta) (-alpha) with
    | none => rw [heq] at h; exact Option.noConfusion h
    | some r =>
      obtain ⟨v0, l1, tt1⟩ := r
      rw [heq] at h
      dsimp only at h
      simp only [Option.some.injEq, Prod.mk.injEq] at h
      obtain ⟨-, -, h3⟩ := h
      subst h3
      exact hrec _ _ _ _ _ _ _ heq

set_option maxHeartbeats 2000000 in
/-- Board identity through the alpha-beta move loop: assuming apply and revert
are exact inverses and the recursive call preserves the board, the loop leaves
the board exactly as it found it on every control path — illegal-move skip,
beta cutoff and normal completion. -/
theorem ab_loop_board {P M : Type} (ext : Externals P M)
    (recurse : PV M → SearchTree P M → Int → Int → Option (Int × PV M × SearchTree P M))
    (hinv : ∀ p m, ext.revert_move (ext.apply_move p m) m = p)
    (hrec : ∀ lpv t a b v lpv1 t1, recurse lpv t a b = some (v, lpv1, t1) → t1.board = t.board)
    (isRoot fnp : Bool) (beta : Int) :
    ∀ (moves : List M) (i : Nat) (s s2 : ABLoop P M),
      ab_loop ext recurse isRoot fnp beta moves i s = some s2 → s2.tree.board = s.tree.board := by
  intro moves
  induction moves with
  | nil =>
    intro i s s2 h
    simp only [ab_loop, Option.some.injEq] at h
    cases h
    rfl
  | cons m rest ih =>
    intro i s s2 h
    simp only [ab_loop] at h
    split at h
    · split at h
      · exact Option.noConfusion h
      · rename_i value lpv1 t1 heq
        have hb : t1.board = ext.apply_move s.tree.board m :=
          ab_step_board recurse hrec fnp beta i _ _ _ _ _ _ heq
        repeat' split at h
        all_goals
          first
          | exact Option.noConfusion h
          | (simp only [Option.some.injEq] at h
             subst h
             dsimp only [update_killer_heuristic]
             rw [hb]
             exact hinv _ _)
          | (have h2 := ih _ _ _ h
             dsimp only [update_killer_heuristic] at h2
             rw [hb, hinv] at h2
             exact h2)
    · have h2 := ih _ _ _ h
      dsimp only at h2
      rw [hinv] at h2
      exact h2

set_option maxHeartbeats 2000000 in
/-- Board identity through alpha_beta_prune: assuming apply and revert are
exact inverses, the board on exit equals the board on entry on every control
path — time expiry, the depth-0 delegation to quiescence, and the move loop.
The proof is by induction on the depth, using the quiescence lemma at the
leaves. -/
theorem alpha_beta_prune_board {P M : Type} [DecidableEq M] [Inhabited M]
    (ext : Externals P M) (ep : Bool) (lpv0 : PV M) (fuel : Nat)
    (hinv : ∀ p m, ext.revert_move (ext.apply_move p m) m = p) :
    ∀ (depth : Nat) (isRoot : Bool) (pv : PV M) (tree : SearchTree P M)
      (alpha beta v : Int) (pv2 : PV M) (t2 : SearchTree P M),
      alpha_beta_prune ext ep lpv0 fuel depth isRoot pv tree alpha beta = some (v, pv2, t2) →
      t2.board = tree.board := by
  intro depth
  induction depth with
  | zero =>
    intro isRoot pv tree alpha beta v pv2 t2 h
    rw [alpha_beta_prune.eq_def] at h
    dsimp only at h
    split at h
    · simp only [Option.some.injEq, Prod.mk.injEq] at h
      obtain ⟨-, -, h3⟩ := h
      subst h3
      split <;> rfl
    · split at h
      · exact Option.noConfusion h
      · rename_i qv qt heq
        simp only [Option.some.injEq, Prod.mk.injEq] at h
        obtain ⟨-, -, h3⟩ := h
        subst h3
        have hq := quiescence_search_board ext ep hinv fuel _ _ _ _ _ heq
        split at hq
        · exact hq
        · exact hq
  | succ d ihd =>
    intro isRoot pv tree alpha beta v pv2 t2 h
    rw [alpha_beta_prune.eq_def] at h
    dsimp only at h
    split at h
    · simp only [Option.some.injEq, Prod.mk.injEq] at h
      obtain ⟨-, -, h3⟩ := h
      subst h3
      split <;> rfl
    · split at h
      · exact Option.noConfusion h
      · rename_i s heq
        have hb := ab_loop_board ext _ hinv
          (fun lpv t a b v l1 t1 hr => ihd false lpv t a b v l1 t1 hr) isRoot _ beta _ _ _ _ heq
        simp only [Option.some.injEq, Prod.mk.injEq] at h
        obtain ⟨-, -, h3⟩ := h
        subst h3
        dsimp only at hb ⊢
        split at hb
        · exact hb
        · exact hb

/-- Claim C8: assuming apply_move and revert_move are exact inverses, every
call to quiescence_search and every call to alpha_beta_prune returns with
tree.board identical to tree.board on entry, on every control path (normal
loop completion, beta cutoff, illegal-move skip, depth-0 delegation and
time-expiry return). -/
theorem C8_board_identical {P M : Type} [DecidableEq M] [Inhabited M]
    (ext : Externals P M) (ep : Bool)
    (hinv : ∀ p m, ext.revert_move (ext.apply_move p m) m = p) :
    (∀ (fuel : Nat) (tree : SearchTree P M) (alpha beta v : Int) (t2 : SearchTree P M),
        quiescence_search ext ep fuel tree alpha beta = some (v, t2) → t2.board = tree.board) ∧
    (∀ (lpv0 : PV M) (fuel depth : Nat) (isRoot : Bool) (pv : PV M) (tree : SearchTree P M)
        (alpha beta v : Int) (pv2 : PV M) (t2 : SearchTree P M),
        alpha_beta_prune ext ep lpv0 fuel depth isRoot pv tree alpha beta = some (v, pv2, t2) →
        t2.board = tree.board) :=
  ⟨quiescence_search_board ext ep hinv,
   fun lpv0 fuel depth isRoot pv tree alpha beta v pv2 t2 h =>
     alpha_beta_prune_board ext ep lpv0 fuel hinv depth isRoot pv tree alpha beta v pv2 t2 h⟩

/-- Externals over stack boards, with apply and revert exact inverses by
construction: apply pushes the move, revert pops it. -/
def extW : Externals (List Nat) Nat where
  turn := fun _ => true
  evaluate_board := fun _ => 0
  gen_all_moves := fun _ => []
  gen_all_captures := fun _ => []
  apply_move := fun p m => m :: p
  revert_move := fun p _ => p.tail
  is_not_in_check := fun _ _ => true
  move_get_capture := fun _ => 0
  is_empty_piece := fun c => decide (c = 0)
  square_of_from := fun _ _ => 1
  expired := fun _ => false

/-- Concrete tree over stack boards. -/
def treeW : SearchTree (List Nat) Nat where
  board := []
  ply := 0
  raw_nodes := 0
  alpha_beta_nodes := 0
  quiescence_nodes := 0
  principle_variation := { length := 0, line := fun _ => 0 }
  killer_moves := fun _ => (0, 0, 0)
  depth_one_values := fun _ => 0
  tick := 0

/-- The result tree of the concrete quiescence run from treeW: one quiescence
node, one clock read, nothing else. -/
def treeW1 : SearchTree (List Nat) Nat :=
  { treeW with raw_nodes := treeW.raw_nodes + 1,
               quiescence_nodes := treeW.quiescence_nodes + 1,
               tick := treeW.tick + 1 }

/-- treeW at a non-root ply. -/
def treeW2 : SearchTree (List Nat) Nat := { treeW with ply := 5 }

/-- The result tree of the concrete alpha-beta run from treeW2: one alpha-beta
node, one clock read, nothing else. -/
def treeWab : SearchTree (List Nat) Nat :=
  { treeW2 with raw_nodes := treeW2.raw_nodes + 1,
                alpha_beta_nodes := treeW2.alpha_beta_nodes + 1,
                tick := treeW2.tick + 1 }

/-- Arbitrary initial stack content for lpv over numeric moves. -/
def pvZ : PV Nat := { length := 0, line := fun _ => 0 }

/-- Witness for claim C8 at concrete inputs: a quiescence call from treeW and
an alpha-beta call from treeW2 both return with the board unchanged. -/
theorem C8_board_identical_witness :
    treeW1.board = treeW.board ∧ treeWab.board = treeW2.board :=
  ⟨(C8_board_identical extW true (fun p m => rfl)).1 5 treeW (-32000) 32000 0 treeW1 (by rfl),
   (C8_board_identical extW true (fun p m => rfl)).2 pvZ 5 1 false
     treeW.principle_variation treeW2 (-32000) 32000 0 treeW.principle_variation treeWab (by rfl)⟩

/-- A sparse coefficient tuple of the tuner (texel.h is not under src; the
fields index and coeff are the ones texel.c reads). -/
structure TexelTuple where
  index : Nat
  coeff : Int

/-- The fields of a TexelEntry that linearEvaluation reads: the base static
evaluation, the phase scalar, and the sparse tuple list.  The C doubles are
modelled as exact rationals; floating-point rounding is outside the model. -/
structure TexelEntry where
  eval : ℚ
  phase : ℚ
  tuples : List TexelTuple

/-- A TexelVector: per-term (MG, EG) parameter pairs, indexed by term. -/
def TexelVector : Type := Nat → ℚ × ℚ

/-- linearEvaluation, texel.c lines 369-379: accumulate the middlegame and
endgame dot products over the sparse tuples, then interpolate by phase:
eval + ((mg * (256 - phase) + eg * phase) / 256). -/
def linearEvaluation (te : TexelEntry) (params : TexelVector) : ℚ :=
  let mg := (te.tuples.map (fun t => (t.coeff : ℚ) * (params t.index).1)).sum
  let eg := (te.tuples.map (fun t => (t.coeff : ℚ) * (params t.index).2)).sum
  te.eval + ((mg * (256 - te.phase) + eg * te.phase) / 256)

/-- Modelled from the spec: the per-entry evaluation of the error model,
base eval plus the sum over tuples of coeff times the phase-interpolated
parameter ((mg * (256 - phase) + eg * phase) / 256). -/
def linearEvaluation_spec (te : TexelEntry) (params : TexelVector) : ℚ :=
  te.eval + (te.tuples.map (fun t => (t.coeff : ℚ) *
      (((params t.index).1 * (256 - te.phase) + (params t.index).2 * te.phase) / 256))).sum

/-- sigmoid, texel.c lines 381-383: 1 / (1 + 10 ^ (-K * S / 400)), with the C
pow on doubles modelled as the real power. -/
noncomputable def sigmoid (K S : ℝ) : ℝ :=
  1 / (1 + (10 : ℝ) ^ (-K * S / 400))

/-- Interchanging the phase interpolation with the sparse sum: the two ways of
writing the tuner evaluation agree. -/
theorem texel_sum_split (l : List TexelTuple) (params : TexelVector) (phase : ℚ) :
    ((l.map (fun t => (t.coeff : ℚ) * (params t.index).1)).sum * (256 - phase) +
     (l.map (fun t => (t.coeff : ℚ) * (params t.index).2)).sum * phase) / 256 =
    (l.map (fun t => (t.coeff : ℚ) *
        (((params t.index).1 * (256 - phase) + (params t.index).2 * phase) / 256))).sum := by
  induction l with
  | nil => simp
  | cons t ts ih =>
    simp only [List.map_cons, List.sum_cons]
    rw [← ih]
    ring

/-- Claim C10: linearEvaluation computes exactly the spec error-model
evaluation (base eval plus the sparse sum of phase-interpolated parameter
contributions), and sigmoid computes 1 / (1 + 10 ^ (-K S / 400)). -/
theorem C10_error_model :
    (∀ (te : TexelEntry) (params : TexelVector),
        linearEvaluation te params = linearEvaluation_spec te params) ∧
    (∀ K S : ℝ, sigmoid K S = 1 / (1 + (10 : ℝ) ^ (-K * S / 400))) := by
  constructor
  · intro te params
    simp only [linearEvaluation, linearEvaluation_spec]
    rw [texel_sum_split]
  · intro K S
    rfl
